import Mathlib

/-!
Verification of the tabular-pipeline behaviour of the workshop notebooks.

The repository is two notebooks: a cuDF tutorial (`src/unnamed/part_000`)
that loads census microdata and runs a linear sequence of dataframe
transformations, and a SHAP tutorial
(`src/seminar_neeraj/PCA_other/05-Copy1.13-SHAP-Values.ipynb`).

The dataframe is embedded shallowly: a row-label index together with an
ordered collection of named columns, values idealised as rationals.
Operations whose implementation lives in the external libraries are
modelled from the spec (their doc comments say so); the notebook's own
logic (the order of the calls, the one-hot loop with its dropped first
category, the adjust UDF, the train/valid split points) is translated
directly from the notebook cells.
-/

namespace WorkshopNbs

/-- Column element types appearing in the notebook (`gdf.dtypes`). -/
inductive DType
  | int64
  | float64
deriving DecidableEq

/-- A named column: a homogeneous array of fixed-width values, idealised
as rationals, together with its dtype tag. -/
structure Column where
  name : String
  dtype : DType
  vals : List ℚ
deriving DecidableEq

/-- A GPU dataframe (GDF): a list of row labels (the index) plus an ordered
collection of named columns. -/
structure DataFrame where
  index : List ℕ
  cols : List Column
deriving DecidableEq

/-- Number of rows of the dataframe. -/
def DataFrame.nrows (df : DataFrame) : ℕ := df.index.length

/-- Row alignment across columns: every column has exactly as many entries
as there are row labels. -/
def DataFrame.aligned (df : DataFrame) : Prop :=
  ∀ c ∈ df.cols, c.vals.length = df.nrows

instance (df : DataFrame) : Decidable df.aligned :=
  List.decidableBAll _ df.cols

/-- Look a column up by name (first match), as `gdf[k]` does. -/
def DataFrame.getCol (df : DataFrame) (name : String) : Option Column :=
  df.cols.find? (fun c => c.name == name)

/-- The values of the named column, `[]` when the column is absent. -/
def DataFrame.colVals (df : DataFrame) (name : String) : List ℚ :=
  ((df.getCol name).map Column.vals).getD []

/-- Modelled from the spec (column projection is a library call):
`gdf.loc[:, column_names]` keeps the named columns, in the order the
names are given, leaving the index untouched. -/
def DataFrame.selectCols (df : DataFrame) (names : List String) : DataFrame :=
  { index := df.index
    cols := names.filterMap (fun n => df.getCol n) }

/-- Value conversion performed by a dtype cast.  The only casts the
notebook performs target `float64`, which keep the value. -/
def castVal : DType → ℚ → ℚ
  | .float64, q => q
  | .int64, q => (⌊q⌋ : ℚ)

/-- Modelled from the spec (type casting is a library call):
`gdf[k] = gdf[k].astype(dt)` retags the named column and converts each
of its values, leaving every other column and the index untouched. -/
def DataFrame.astype (df : DataFrame) (name : String) (dt : DType) : DataFrame :=
  { df with
    cols := df.cols.map (fun c =>
      if c.name == name then { c with dtype := dt, vals := c.vals.map (castVal dt) } else c) }

/-- Modelled from the spec (element-wise mapping is a library call):
`gdf[k] = gdf[k].applymap(f)` maps `f` over the named column's values,
leaving every other column and the index untouched. -/
def DataFrame.applymap (df : DataFrame) (name : String) (f : ℚ → ℚ) : DataFrame :=
  { df with
    cols := df.cols.map (fun c =>
      if c.name == name then { c with vals := c.vals.map f } else c) }

/-- `gdf.drop_column(k)` / `del gdf[k]` — remove the named column. -/
def DataFrame.dropColumn (df : DataFrame) (name : String) : DataFrame :=
  { df with cols := df.cols.filter (fun c => !(c.name == name)) }

/-- Comparison used to model `sort_values(by=key, ascending=True)`: row
position `i` precedes row position `j` when its key value is smaller,
ties broken by original position — the stable order. -/
def sortKeyRel (key : List ℚ) (i j : ℕ) : Prop :=
  key.getD i 0 < key.getD j 0 ∨ (key.getD i 0 = key.getD j 0 ∧ i ≤ j)

instance (key : List ℚ) : DecidableRel (sortKeyRel key) := fun _ _ => by
  unfold sortKeyRel; infer_instance

instance (key : List ℚ) : IsTotal ℕ (sortKeyRel key) where
  total i j := by
    unfold sortKeyRel
    rcases lt_trichotomy (key.getD i 0) (key.getD j 0) with h | h | h
    · exact Or.inl (Or.inl h)
    · rcases Nat.le_total i j with hij | hij
      · exact Or.inl (Or.inr ⟨h, hij⟩)
      · exact Or.inr (Or.inr ⟨h.symm, hij⟩)
    · exact Or.inr (Or.inl h)

instance (key : List ℚ) : IsTrans ℕ (sortKeyRel key) where
  trans i j k hij hjk := by
    unfold sortKeyRel at *
    rcases hij with h1 | ⟨e1, l1⟩
    · rcases hjk with h2 | ⟨e2, _⟩
      · exact Or.inl (h1.trans h2)
      · exact Or.inl (e2 ▸ h1)
    · rcases hjk with h2 | ⟨e2, l2⟩
      · exact Or.inl (e1 ▸ h2)
      · exact Or.inr ⟨e1.trans e2, l1.trans l2⟩

/-- The stable sorting permutation of the row positions `0..n-1` by the
key column: positions sorted by key value, ties kept in position order. -/
def sortPerm (key : List ℚ) (n : ℕ) : List ℕ :=
  List.insertionSort (sortKeyRel key) (List.range n)

/-- Reorder (or select) the entries of a value list by a list of row
positions. -/
def reindex (p : List ℕ) (v : List ℚ) : List ℚ :=
  p.map (fun i => v.getD i 0)

/-- Modelled from the spec (the sort kernel is a library call; the spec
names it a stable sort): `gdf.sort_values(by=name, ascending=True)`
reorders the index and every column by the stable sorting permutation of
the key column. -/
def DataFrame.sortValues (df : DataFrame) (name : String) : DataFrame :=
  { index := (sortPerm (df.colVals name) df.nrows).map (fun i => df.index.getD i 0)
    cols := df.cols.map (fun c =>
      { c with vals := reindex (sortPerm (df.colVals name) df.nrows) c.vals }) }

/-- `gdf.reset_index()` — replace the row labels by `0..n-1`. -/
def DataFrame.resetIndex (df : DataFrame) : DataFrame :=
  { df with index := List.range df.nrows }

/-- The row positions `query` keeps: the positions whose value in the
named column satisfies the predicate, in their original order. -/
def DataFrame.queryKeep (df : DataFrame) (name : String) (p : ℚ → Bool) : List ℕ :=
  (List.range df.nrows).filter (fun i => p ((df.colVals name).getD i 0))

/-- Modelled from the spec (predicate filtering is a library call that
must apply identically across all columns): `gdf.query(expr)` keeps
exactly the rows whose value in the named column satisfies the
predicate, removing whole rows — the same kept positions are applied to
the index and to every column. -/
def DataFrame.query (df : DataFrame) (name : String) (p : ℚ → Bool) : DataFrame :=
  { index := (df.queryKeep name p).map (fun i => df.index.getD i 0)
    cols := df.cols.map (fun c => { c with vals := reindex (df.queryKeep name p) c.vals }) }

/-- Modelled from the spec (a library call): `Series.unique_k` — the
sorted list of the distinct values of a column, as the recorded notebook
output shows (`STATEICP_2, STATEICP_3, …` in ascending order). -/
def unique_k (v : List ℚ) : List ℚ :=
  (List.insertionSort (· ≤ ·) v).dedup

/-- The indicator column the one-hot expansion produces for category
value `v` of the column `c`: named by the given column name and value,
holding 1 where `c` equals `v` and 0 elsewhere. -/
def indicatorColumn (k : String) (c : Column) (v : ℚ) : Column :=
  { name := k ++ "_" ++ toString v
    dtype := .float64
    vals := c.vals.map (fun x => if x = v then 1 else 0) }

/-- Modelled from the spec (one-hot expansion is a library call;
glossary: conversion of a categorical column into multiple binary
indicator columns): `gdf.one_hot_encoding(k, prefix=k, cats=cats)`
appends one indicator column per entry of `cats`, leaving the original
column in place; absent columns leave the frame unchanged. -/
def DataFrame.oneHotEncoding (df : DataFrame) (k : String) (cats : List ℚ) : DataFrame :=
  match df.getCol k with
  | none => df
  | some c => { df with cols := df.cols ++ cats.map (indicatorColumn k c) }

/-- One iteration of the notebook's one-hot loop for the categorical
column `k`: take the sorted distinct values, drop the first
(`cats = uniques[k][1:]`), one-hot encode against the rest, then
`del gdf[k]`. -/
def DataFrame.oneHotStep (df : DataFrame) (k : String) : DataFrame :=
  (df.oneHotEncoding k (unique_k (df.colVals k)).tail).dropColumn k

/-- The categorical columns of the notebook (`cat_cols`). -/
def catCols : List String := ["STATEICP", "RACE", "SEX", "VETSTAT"]

/-- The notebook's one-hot loop over its categorical columns. -/
def DataFrame.oneHotLoop (df : DataFrame) : DataFrame :=
  catCols.foldl DataFrame.oneHotStep df

/-- The row positions kept by the label slice `gdf.loc[:s]`. -/
def DataFrame.keepLe (df : DataFrame) (s : ℕ) : List ℕ :=
  (List.range df.nrows).filter (fun i => decide (df.index.getD i 0 ≤ s))

/-- The row positions kept by the label slice `gdf.loc[s:]`. -/
def DataFrame.keepGe (df : DataFrame) (s : ℕ) : List ℕ :=
  (List.range df.nrows).filter (fun i => decide (s ≤ df.index.getD i 0))

/-- Modelled from the spec (index-based partitioning is a library call):
`gdf.loc[:s]` — the rows whose label is at most `s`; label slicing is
inclusive at both ends, and the same kept positions are applied to the
index and to every column. -/
def DataFrame.locLe (df : DataFrame) (s : ℕ) : DataFrame :=
  { index := (df.keepLe s).map (fun i => df.index.getD i 0)
    cols := df.cols.map (fun c => { c with vals := reindex (df.keepLe s) c.vals }) }

/-- Modelled from the spec (index-based partitioning is a library call):
`gdf.loc[s:]` — the rows whose label is at least `s`. -/
def DataFrame.locGe (df : DataFrame) (s : ℕ) : DataFrame :=
  { index := (df.keepGe s).map (fun i => df.index.getD i 0)
    cols := df.cols.map (fun c => { c with vals := reindex (df.keepGe s) c.vals }) }

/-- The notebook's `splitpoint = int(len(gdf) * 0.8)`, in exact
arithmetic. -/
def DataFrame.splitpoint (df : DataFrame) : ℕ := 4 * df.nrows / 5

/-- The notebook's train/valid split at label `s`:
`{"train": gdf.loc[:s], "valid": gdf.loc[s:]}`. -/
def DataFrame.trainValidSplit (df : DataFrame) (s : ℕ) : DataFrame × DataFrame :=
  (df.locLe s, df.locGe s)

/-- The adjustment factor `adjust = gdf['ADJUST'][0]`, the constant taken
from the first row of the `ADJUST` column. -/
def DataFrame.adjustFactor (df : DataFrame) : ℚ :=
  (df.colVals "ADJUST").getD 0 0

/-- The notebook's UDF: `adjust_incearn(incearn) = adjust * incearn`. -/
def adjust_incearn (adjust incearn : ℚ) : ℚ := adjust * incearn

/-- The notebook's UDF cell: apply `adjust_incearn` element-wise to
`INCEARN`, then drop the `ADJUST` column. -/
def DataFrame.adjustStep (df : DataFrame) : DataFrame :=
  (df.applymap "INCEARN" (adjust_incearn df.adjustFactor)).dropColumn "ADJUST"

/-! ## Helper lemmas about column lookup -/

theorem getCol_mem {df : DataFrame} {name : String} {c : Column}
    (h : df.getCol name = some c) : c ∈ df.cols :=
  List.mem_of_find?_eq_some h

theorem getCol_name {df : DataFrame} {name : String} {c : Column}
    (h : df.getCol name = some c) : c.name = name := by
  simpa using List.find?_some h

theorem find?_name_map (g : Column → Column) (hg : ∀ c, (g c).name = c.name)
    (l : List Column) (name : String) :
    (l.map g).find? (fun c => c.name == name)
      = (l.find? (fun c => c.name == name)).map g := by
  induction l with
  | nil => rfl
  | cons c l ih =>
    simp only [List.map_cons, List.find?_cons, hg c]
    cases hc : (c.name == name) <;> simp [hc, ih]

theorem find?_ite_map_self (l : List Column) (name : String) (g : Column → Column)
    (hg : ∀ c, (g c).name = c.name) :
    (l.map (fun c => if c.name == name then g c else c)).find? (fun c => c.name == name)
      = (l.find? (fun c => c.name == name)).map g := by
  induction l with
  | nil => rfl
  | cons c l ih =>
    rw [List.map_cons]
    by_cases hcn : c.name = name
    · have hc : (c.name == name) = true := by simp [hcn]
      have hhead : (if c.name == name then g c else c) = g c := if_pos hc
      have hpg : ((g c).name == name) = true := by rw [hg c]; exact hc
      rw [hhead, @List.find?_cons_of_pos Column (fun c => c.name == name) (g c) _ hpg,
        @List.find?_cons_of_pos Column (fun c => c.name == name) c _ hc]
      rfl
    · have hc : (c.name == name) = false := by simp [hcn]
      have heq : (if c.name == name then g c else c) = c := if_neg (by simp [hc])
      rw [heq, @List.find?_cons_of_neg Column (fun c => c.name == name) c _ (by simp [hcn]),
        @List.find?_cons_of_neg Column (fun c => c.name == name) c _ (by simp [hcn]), ih]

theorem find?_ite_map_ne (l : List Column) {name name' : String} (h : name' ≠ name)
    (g : Column → Column) (hg : ∀ c, (g c).name = c.name) :
    (l.map (fun c => if c.name == name then g c else c)).find? (fun c => c.name == name')
      = l.find? (fun c => c.name == name') := by
  induction l with
  | nil => rfl
  | cons c l ih =>
    rw [List.map_cons]
    by_cases hcn : c.name = name
    · have hc : (c.name == name) = true := by simp [hcn]
      have hne : ¬ c.name = name' := by rw [hcn]; exact fun e => h e.symm
      have hhead : (if c.name == name then g c else c) = g c := if_pos hc
      have hpg : ¬ ((g c).name == name') = true := by rw [hg c]; simp [hne]
      rw [hhead, @List.find?_cons_of_neg Column (fun c => c.name == name') (g c) _ hpg,
        @List.find?_cons_of_neg Column (fun c => c.name == name') c _ (by simp [hne]), ih]
    · have hc : (c.name == name) = false := by simp [hcn]
      have heq : (if c.name == name then g c else c) = c := if_neg (by simp [hc])
      rw [heq]
      by_cases hc' : c.name = name'
      · rw [@List.find?_cons_of_pos Column (fun c => c.name == name') c _ (by simp [hc']),
          @List.find?_cons_of_pos Column (fun c => c.name == name') c _ (by simp [hc'])]
      · rw [@List.find?_cons_of_neg Column (fun c => c.name == name') c _ (by simp [hc']),
          @List.find?_cons_of_neg Column (fun c => c.name == name') c _ (by simp [hc']), ih]

theorem getCol_applymap_self (df : DataFrame) (name : String) (f : ℚ → ℚ) :
    (df.applymap name f).getCol name
      = (df.getCol name).map (fun c => { c with vals := c.vals.map f }) := by
  unfold DataFrame.applymap DataFrame.getCol
  exact find?_ite_map_self df.cols name _ (fun c => rfl)

theorem getCol_applymap_ne (df : DataFrame) {name name' : String} (f : ℚ → ℚ)
    (h : name' ≠ name) :
    (df.applymap name f).getCol name' = df.getCol name' := by
  unfold DataFrame.applymap DataFrame.getCol
  exact find?_ite_map_ne df.cols h _ (fun c => rfl)

theorem getCol_dropColumn_self (df : DataFrame) (name : String) :
    (df.dropColumn name).getCol name = none := by
  unfold DataFrame.dropColumn DataFrame.getCol
  rw [List.find?_eq_none]
  intro c hc
  have := (List.mem_filter.mp hc).2
  simpa using this

theorem getCol_dropColumn_ne (df : DataFrame) {name name' : String}
    (h : name' ≠ name) :
    (df.dropColumn name).getCol name' = df.getCol name' := by
  unfold DataFrame.dropColumn DataFrame.getCol
  induction df.cols with
  | nil => rfl
  | cons c l ih =>
    by_cases hcn : c.name = name
    · have h1 : (!(c.name == name)) = false := by simp [hcn]
      have h2 : (c.name == name') = false := by
        simp only [beq_eq_false_iff_ne, ne_eq, hcn]
        exact fun e => h e.symm
      simp [List.filter_cons, h1, List.find?_cons, h2, ih]
    · have h1 : (!(c.name == name)) = true := by simp [hcn]
      simp only [List.filter_cons, h1, if_true, List.find?_cons]
      cases hc : (c.name == name') <;> simp [hc, ih]

theorem getCol_sortValues (df : DataFrame) (name name' : String) :
    (df.sortValues name).getCol name'
      = (df.getCol name').map (fun c =>
          { c with vals := reindex (sortPerm (df.colVals name) df.nrows) c.vals }) := by
  unfold DataFrame.sortValues DataFrame.getCol
  exact find?_name_map
    (fun c => { c with vals := reindex (sortPerm (df.colVals name) df.nrows) c.vals })
    (fun c => rfl) df.cols name'

theorem getCol_query (df : DataFrame) (name name' : String) (p : ℚ → Bool) :
    (df.query name p).getCol name'
      = (df.getCol name').map (fun c =>
          { c with vals := reindex (df.queryKeep name p) c.vals }) := by
  unfold DataFrame.query DataFrame.getCol
  exact find?_name_map
    (fun c => { c with vals := reindex (df.queryKeep name p) c.vals })
    (fun c => rfl) df.cols name'

/-! ## Row alignment is preserved (claim C1) -/

theorem aligned_selectCols {df : DataFrame} (h : df.aligned) (names : List String) :
    (df.selectCols names).aligned := by
  intro c hc
  simp only [DataFrame.selectCols, List.mem_filterMap] at hc
  obtain ⟨n, _, hn⟩ := hc
  exact h c (getCol_mem hn)

theorem aligned_astype {df : DataFrame} (h : df.aligned) (name : String) (dt : DType) :
    (df.astype name dt).aligned := by
  intro c hc
  simp only [DataFrame.astype, List.mem_map] at hc
  obtain ⟨c0, hc0, rfl⟩ := hc
  have := h c0 hc0
  split <;> simpa [DataFrame.nrows, DataFrame.astype] using this

theorem aligned_applymap {df : DataFrame} (h : df.aligned) (name : String) (f : ℚ → ℚ) :
    (df.applymap name f).aligned := by
  intro c hc
  simp only [DataFrame.applymap, List.mem_map] at hc
  obtain ⟨c0, hc0, rfl⟩ := hc
  have := h c0 hc0
  split <;> simpa [DataFrame.nrows, DataFrame.applymap] using this

theorem aligned_dropColumn {df : DataFrame} (h : df.aligned) (name : String) :
    (df.dropColumn name).aligned :=
  fun c hc => h c (List.mem_of_mem_filter hc)

theorem aligned_sortValues (df : DataFrame) (name : String) :
    (df.sortValues name).aligned := by
  intro c hc
  simp only [DataFrame.sortValues, List.mem_map] at hc
  obtain ⟨c0, _, rfl⟩ := hc
  simp [DataFrame.nrows, reindex, DataFrame.sortValues]

theorem aligned_query (df : DataFrame) (name : String) (p : ℚ → Bool) :
    (df.query name p).aligned := by
  intro c hc
  simp only [DataFrame.query, List.mem_map] at hc
  obtain ⟨c0, _, rfl⟩ := hc
  simp [DataFrame.nrows, reindex, DataFrame.query]

theorem aligned_locLe (df : DataFrame) (s : ℕ) : (df.locLe s).aligned := by
  intro c hc
  simp only [DataFrame.locLe, List.mem_map] at hc
  obtain ⟨c0, _, rfl⟩ := hc
  simp [DataFrame.nrows, reindex, DataFrame.locLe]

theorem aligned_locGe (df : DataFrame) (s : ℕ) : (df.locGe s).aligned := by
  intro c hc
  simp only [DataFrame.locGe, List.mem_map] at hc
  obtain ⟨c0, _, rfl⟩ := hc
  simp [DataFrame.nrows, reindex, DataFrame.locGe]

theorem aligned_oneHotEncoding {df : DataFrame} (h : df.aligned)
    (k : String) (cats : List ℚ) : (df.oneHotEncoding k cats).aligned := by
  unfold DataFrame.oneHotEncoding
  cases hg : df.getCol k with
  | none => exact h
  | some c =>
    intro c' hc'
    rcases List.mem_append.mp hc' with hl | hr
    · exact h c' hl
    · simp only [List.mem_map] at hr
      obtain ⟨v, _, rfl⟩ := hr
      simpa [indicatorColumn, DataFrame.nrows] using h c (getCol_mem hg)

theorem aligned_oneHotStep {df : DataFrame} (h : df.aligned) (k : String) :
    (df.oneHotStep k).aligned :=
  aligned_dropColumn (aligned_oneHotEncoding h k _) k

theorem aligned_oneHotFold {df : DataFrame} (h : df.aligned) (ks : List String) :
    (ks.foldl DataFrame.oneHotStep df).aligned := by
  induction ks generalizing df with
  | nil => exact h
  | cons k ks ih => exact ih (aligned_oneHotStep h k)

/-- C1: every tabular transformation of the pipeline — column selection,
type cast, element-wise UDF, stable sort, one-hot encoding — preserves
row alignment across columns (all columns keep one entry per row label),
and the explicit filter (`query`) and the label slices of the
train/validation split apply one common list of kept row positions to
the index and to every column alike, removing or keeping whole rows. -/
theorem pipeline_preserves_row_alignment
    (df : DataFrame) (names : List String) (cn : String) (dt : DType) (f : ℚ → ℚ)
    (qn : String) (p : ℚ → Bool) (s : ℕ) (h : df.aligned) :
    (df.selectCols names).aligned ∧
    (df.astype cn dt).aligned ∧
    (df.applymap cn f).aligned ∧
    (df.sortValues cn).aligned ∧
    df.oneHotLoop.aligned ∧
    ((df.query qn p).aligned ∧
      (df.query qn p).index = (df.queryKeep qn p).map (fun i => df.index.getD i 0) ∧
      (df.query qn p).cols
        = df.cols.map (fun c => { c with vals := reindex (df.queryKeep qn p) c.vals })) ∧
    ((df.locLe s).aligned ∧ (df.locGe s).aligned ∧
      (df.locLe s).index = (df.keepLe s).map (fun i => df.index.getD i 0) ∧
      (df.locLe s).cols
        = df.cols.map (fun c => { c with vals := reindex (df.keepLe s) c.vals }) ∧
      (df.locGe s).index = (df.keepGe s).map (fun i => df.index.getD i 0) ∧
      (df.locGe s).cols
        = df.cols.map (fun c => { c with vals := reindex (df.keepGe s) c.vals })) :=
  ⟨aligned_selectCols h names, aligned_astype h cn dt, aligned_applymap h cn f,
    aligned_sortValues df cn, aligned_oneHotFold h catCols,
    ⟨aligned_query df qn p, rfl, rfl⟩,
    ⟨aligned_locLe df s, aligned_locGe df s, rfl, rfl, rfl, rfl⟩⟩

/-- A small concrete aligned dataframe used by the witnesses. -/
def dfW : DataFrame :=
  { index := [0, 1, 2]
    cols := [⟨"INCEARN", .float64, [4000, -5, 900]⟩,
             ⟨"ADJUST", .float64, [1018516/1000000, 1018516/1000000, 1018516/1000000]⟩,
             ⟨"SEX", .int64, [1, 2, 1]⟩] }

/-- Witness for C1 at a concrete aligned dataframe. -/
theorem pipeline_preserves_row_alignment_witness :
    (dfW.selectCols ["SEX", "INCEARN"]).aligned ∧
    (dfW.astype "INCEARN" .float64).aligned ∧
    (dfW.applymap "INCEARN" (fun x => 2 * x)).aligned ∧
    (dfW.sortValues "INCEARN").aligned ∧
    dfW.oneHotLoop.aligned ∧
    ((dfW.query "INCEARN" (fun q => decide (0 ≤ q))).aligned ∧
      (dfW.query "INCEARN" (fun q => decide (0 ≤ q))).index
        = (dfW.queryKeep "INCEARN" (fun q => decide (0 ≤ q))).map
            (fun i => dfW.index.getD i 0) ∧
      (dfW.query "INCEARN" (fun q => decide (0 ≤ q))).cols
        = dfW.cols.map (fun c =>
            { c with vals := reindex (dfW.queryKeep "INCEARN" (fun q => decide (0 ≤ q))) c.vals })) ∧
    ((dfW.locLe 2).aligned ∧ (dfW.locGe 2).aligned ∧
      (dfW.locLe 2).index = (dfW.keepLe 2).map (fun i => dfW.index.getD i 0) ∧
      (dfW.locLe 2).cols
        = dfW.cols.map (fun c => { c with vals := reindex (dfW.keepLe 2) c.vals }) ∧
      (dfW.locGe 2).index = (dfW.keepGe 2).map (fun i => dfW.index.getD i 0) ∧
      (dfW.locGe 2).cols
        = dfW.cols.map (fun c => { c with vals := reindex (dfW.keepGe 2) c.vals })) :=
  pipeline_preserves_row_alignment dfW ["SEX", "INCEARN"] "INCEARN" .float64
    (fun x => 2 * x) "INCEARN" (fun q => decide (0 ≤ q)) 2 (by decide)

/-! ## The sort step is a stable sort (claim C4) -/

theorem sortPerm_perm (key : List ℚ) (n : ℕ) : (sortPerm key n).Perm (List.range n) :=
  List.perm_insertionSort _ _

theorem sortPerm_sorted (key : List ℚ) (n : ℕ) :
    List.Sorted (sortKeyRel key) (sortPerm key n) :=
  List.sorted_insertionSort _ _

theorem sortPerm_stable (key : List ℚ) (n : ℕ) {i j : ℕ}
    (hij : i < j) (hj : j < n) (hkey : key.getD i 0 = key.getD j 0) :
    (sortPerm key n).indexOf i < (sortPerm key n).indexOf j := by
  have hperm := sortPerm_perm key n
  have hi : i ∈ sortPerm key n := hperm.mem_iff.mpr (List.mem_range.mpr (hij.trans hj))
  have hjm : j ∈ sortPerm key n := hperm.mem_iff.mpr (List.mem_range.mpr hj)
  have hil : (sortPerm key n).indexOf i < (sortPerm key n).length :=
    List.indexOf_lt_length.mpr hi
  have hjl : (sortPerm key n).indexOf j < (sortPerm key n).length :=
    List.indexOf_lt_length.mpr hjm
  rcases lt_trichotomy ((sortPerm key n).indexOf i) ((sortPerm key n).indexOf j)
    with h | h | h
  · exact h
  · exfalso
    have h1 : (sortPerm key n)[(sortPerm key n).indexOf i]? = some i := by
      rw [List.getElem?_eq_getElem hil, List.getElem_indexOf hil]
    have h2 : (sortPerm key n)[(sortPerm key n).indexOf j]? = some j := by
      rw [List.getElem?_eq_getElem hjl, List.getElem_indexOf hjl]
    rw [h] at h1
    have hj' : i = j := Option.some.inj (h1.symm.trans h2)
    omega
  · exfalso
    have hpw := sortPerm_sorted key n
    have hrel := List.pairwise_iff_getElem.mp hpw _ _ hjl hil h
    rw [List.getElem_indexOf hjl, List.getElem_indexOf hil] at hrel
    rcases hrel with hlt | ⟨_, hle⟩
    · rw [hkey] at hlt
      exact lt_irrefl _ hlt
    · omega

theorem sortPerm_keys_sorted (key : List ℚ) (n : ℕ) :
    List.Sorted (· ≤ ·) ((sortPerm key n).map (fun i => key.getD i 0)) := by
  have h := sortPerm_sorted key n
  rw [List.Sorted, List.pairwise_map]
  refine h.imp ?_
  intro a b hab
  rcases hab with hlt | ⟨he, _⟩
  · exact hlt.le
  · exact he.le

/-- C4: the sort step is a stable sort: sorting the dataframe by the
`INCEARN` column ascending reorders the index and every column by one
common permutation of the row positions, the resulting `INCEARN` values
are in non-decreasing order, and any two rows with equal `INCEARN`
values keep their relative order from the input (the earlier row stays
earlier). -/
theorem sort_by_incearn_stable (df : DataFrame) (c : Column)
    (hc : df.getCol "INCEARN" = some c) :
    (sortPerm c.vals df.nrows).Perm (List.range df.nrows) ∧
    (df.sortValues "INCEARN").index
      = (sortPerm c.vals df.nrows).map (fun i => df.index.getD i 0) ∧
    (df.sortValues "INCEARN").cols
      = df.cols.map (fun cc =>
          { cc with vals := reindex (sortPerm c.vals df.nrows) cc.vals }) ∧
    List.Sorted (· ≤ ·) ((df.sortValues "INCEARN").colVals "INCEARN") ∧
    (∀ i j, i < j → j < df.nrows → c.vals.getD i 0 = c.vals.getD j 0 →
      (sortPerm c.vals df.nrows).indexOf i < (sortPerm c.vals df.nrows).indexOf j) := by
  have hv : df.colVals "INCEARN" = c.vals := by simp [DataFrame.colVals, hc]
  refine ⟨sortPerm_perm _ _, ?_, ?_, ?_, ?_⟩
  · rw [DataFrame.sortValues, hv]
  · rw [DataFrame.sortValues, hv]
  · have h1 : (df.sortValues "INCEARN").colVals "INCEARN"
        = reindex (sortPerm (df.colVals "INCEARN") df.nrows) c.vals := by
      simp [DataFrame.colVals, getCol_sortValues, hc]
    rw [h1, hv]
    exact sortPerm_keys_sorted c.vals df.nrows
  · intro i j hij hj hkey
    exact sortPerm_stable c.vals df.nrows hij hj hkey

/-- The `INCEARN` column of the witness dataframe `dfW`. -/
def cWinc : Column := ⟨"INCEARN", .float64, [4000, -5, 900]⟩

/-- Witness for C4 at the concrete dataframe `dfW`. -/
theorem sort_by_incearn_stable_witness :
    (sortPerm cWinc.vals dfW.nrows).Perm (List.range dfW.nrows) ∧
    (dfW.sortValues "INCEARN").index
      = (sortPerm cWinc.vals dfW.nrows).map (fun i => dfW.index.getD i 0) ∧
    (dfW.sortValues "INCEARN").cols
      = dfW.cols.map (fun cc =>
          { cc with vals := reindex (sortPerm cWinc.vals dfW.nrows) cc.vals }) ∧
    List.Sorted (· ≤ ·) ((dfW.sortValues "INCEARN").colVals "INCEARN") ∧
    (∀ i j, i < j → j < dfW.nrows → cWinc.vals.getD i 0 = cWinc.vals.getD j 0 →
      (sortPerm cWinc.vals dfW.nrows).indexOf i < (sortPerm cWinc.vals dfW.nrows).indexOf j) :=
  sort_by_incearn_stable dfW cWinc (by decide)

/-! ## Predicate filtering (claim C8) -/

/-- The predicate of the notebook's filter cell, `INCEARN >= 0`. -/
def nonNeg (q : ℚ) : Bool := decide (0 ≤ q)

/-- C8: `query('INCEARN >= 0')` returns exactly the rows of the input
whose `INCEARN` value is ≥ 0, as a subsequence preserving the input's
relative row order: the kept positions are an increasing subsequence of
the row positions, a position is kept precisely when its `INCEARN` value
satisfies the predicate (sound and complete), the same kept positions
are applied to the index and to every column, and every `INCEARN` value
of the result satisfies the predicate. -/
theorem query_incearn_filter (df : DataFrame) (c : Column)
    (hc : df.getCol "INCEARN" = some c) :
    (df.queryKeep "INCEARN" nonNeg).Sublist (List.range df.nrows) ∧
    (∀ i, i ∈ df.queryKeep "INCEARN" nonNeg ↔ i < df.nrows ∧ 0 ≤ c.vals.getD i 0) ∧
    (df.query "INCEARN" nonNeg).index
      = (df.queryKeep "INCEARN" nonNeg).map (fun i => df.index.getD i 0) ∧
    (df.query "INCEARN" nonNeg).cols
      = df.cols.map (fun cc =>
          { cc with vals := reindex (df.queryKeep "INCEARN" nonNeg) cc.vals }) ∧
    (∀ x ∈ (df.query "INCEARN" nonNeg).colVals "INCEARN", 0 ≤ x) := by
  have hv : df.colVals "INCEARN" = c.vals := by simp [DataFrame.colVals, hc]
  refine ⟨List.filter_sublist _, ?_, rfl, rfl, ?_⟩
  · intro i
    simp [DataFrame.queryKeep, hv, List.mem_filter, List.mem_range, nonNeg]
  · intro x hx
    have h1 : (df.query "INCEARN" nonNeg).colVals "INCEARN"
        = reindex (df.queryKeep "INCEARN" nonNeg) c.vals := by
      simp [DataFrame.colVals, getCol_query, hc]
    rw [h1] at hx
    simp only [reindex, List.mem_map] at hx
    obtain ⟨i, hi, rfl⟩ := hx
    have hp := (List.mem_filter.mp hi).2
    rw [hv] at hp
    simpa [nonNeg] using hp

/-- Witness for C8 at the concrete dataframe `dfW`. -/
theorem query_incearn_filter_witness :
    (dfW.queryKeep "INCEARN" nonNeg).Sublist (List.range dfW.nrows) ∧
    (∀ i, i ∈ dfW.queryKeep "INCEARN" nonNeg ↔ i < dfW.nrows ∧ 0 ≤ cWinc.vals.getD i 0) ∧
    (dfW.query "INCEARN" nonNeg).index
      = (dfW.queryKeep "INCEARN" nonNeg).map (fun i => dfW.index.getD i 0) ∧
    (dfW.query "INCEARN" nonNeg).cols
      = dfW.cols.map (fun cc =>
          { cc with vals := reindex (dfW.queryKeep "INCEARN" nonNeg) cc.vals }) ∧
    (∀ x ∈ (dfW.query "INCEARN" nonNeg).colVals "INCEARN", 0 ≤ x) :=
  query_incearn_filter dfW cWinc (by decide)

/-! ## The INCEARN adjustment UDF (claims C6 and C10) -/

/-- C6: the UDF cell maps `INCEARN` element-wise: the new `INCEARN`
column is exactly the old one with every value multiplied by the
adjustment factor taken from the first row of `ADJUST`; in particular
the column keeps its length, and each entry in range is the product. -/
theorem adjust_incearn_elementwise (df : DataFrame) (c : Column)
    (hc : df.getCol "INCEARN" = some c) :
    df.adjustStep.colVals "INCEARN"
      = c.vals.map (fun x => adjust_incearn df.adjustFactor x) ∧
    (df.adjustStep.colVals "INCEARN").length = c.vals.length ∧
    (∀ i, i < c.vals.length →
      (df.adjustStep.colVals "INCEARN").getD i 0 = df.adjustFactor * c.vals.getD i 0) ∧
    df.adjustFactor = (df.colVals "ADJUST").getD 0 0 := by
  have hcv : df.adjustStep.getCol "INCEARN"
      = some { c with vals := c.vals.map (adjust_incearn df.adjustFactor) } := by
    unfold DataFrame.adjustStep
    rw [getCol_dropColumn_ne _ (by decide), getCol_applymap_self, hc]
    rfl
  have hmain : df.adjustStep.colVals "INCEARN"
      = c.vals.map (fun x => adjust_incearn df.adjustFactor x) := by
    simp [DataFrame.colVals, hcv]
  refine ⟨hmain, by simp [hmain], ?_, rfl⟩
  intro i hi
  have hlen : i < (c.vals.map (fun x => adjust_incearn df.adjustFactor x)).length := by
    simpa using hi
  rw [hmain, List.getD_eq_getElem _ _ hlen, List.getElem_map,
    List.getD_eq_getElem _ _ hi]
  rfl

/-- Witness for C6 at the concrete dataframe `dfW`. -/
theorem adjust_incearn_elementwise_witness :
    dfW.adjustStep.colVals "INCEARN"
      = cWinc.vals.map (fun x => adjust_incearn dfW.adjustFactor x) ∧
    (dfW.adjustStep.colVals "INCEARN").length = cWinc.vals.length ∧
    (∀ i, i < cWinc.vals.length →
      (dfW.adjustStep.colVals "INCEARN").getD i 0 = dfW.adjustFactor * cWinc.vals.getD i 0) ∧
    dfW.adjustFactor = (dfW.colVals "ADJUST").getD 0 0 :=
  adjust_incearn_elementwise dfW cWinc (by decide)

/-- C10: the UDF cell followed by `drop_column('ADJUST')` changes only
those two columns: every column other than `INCEARN` and `ADJUST` is
returned unchanged (same values, same row order, not removed), the
index is untouched, and `ADJUST` itself is removed. -/
theorem adjustStep_frame_effect (df : DataFrame) (name : String)
    (h1 : name ≠ "INCEARN") (h2 : name ≠ "ADJUST") :
    df.adjustStep.getCol name = df.getCol name ∧
    df.adjustStep.getCol "ADJUST" = none ∧
    df.adjustStep.index = df.index := by
  refine ⟨?_, ?_, rfl⟩
  · unfold DataFrame.adjustStep
    rw [getCol_dropColumn_ne _ h2, getCol_applymap_ne _ _ h1]
  · exact getCol_dropColumn_self _ _

/-- Witness for C10 at the concrete dataframe `dfW` and the untouched
column `SEX`. -/
theorem adjustStep_frame_effect_witness :
    dfW.adjustStep.getCol "SEX" = dfW.getCol "SEX" ∧
    dfW.adjustStep.getCol "ADJUST" = none ∧
    dfW.adjustStep.index = dfW.index :=
  adjustStep_frame_effect dfW "SEX" (by decide) (by decide)

/-! ## One-hot encoding (claim C2) -/

theorem append_underscore_ne (k t : String) : k ++ "_" ++ t ≠ k := by
  intro h
  have hlen := congrArg String.length h
  rw [String.length_append, String.length_append] at hlen
  have h1 : ("_" : String).length = 1 := by decide
  omega

/-- C2 fails as stated: on the `SEX` column of `dfW`, which has the 2
distinct values 1 and 2, the encoding step adds only one indicator
column (`SEX_2`, for the second value), not one per distinct value, and
row 0 — whose category 1 is the dropped first value — has 0 in the
single indicator column rather than a 1 in the column of its category. -/
theorem one_hot_counterexample :
    (unique_k (dfW.colVals "SEX")).length = 2 ∧
    (dfW.oneHotStep "SEX").cols.map Column.name = ["INCEARN", "ADJUST", "SEX_2"] ∧
    (dfW.oneHotStep "SEX").colVals "SEX_2" = [0, 1, 0] ∧
    (dfW.oneHotStep "SEX").getCol "SEX_1" = none := by decide

/-- C2 amended: one-hot encoding a categorical column with k distinct
values adds k−1 indicator columns — one per distinct value EXCEPT the
first (smallest), which the notebook drops via `cats = uniques[k][1:]` —
each appended indicator column holding 1 exactly in the rows whose
category equals its value and 0 elsewhere; rows whose category is the
dropped first value get 0 in every indicator column; the original
column is removed. -/
theorem one_hot_encoding_step (df : DataFrame) (k : String) (c : Column)
    (hc : df.getCol k = some c) (hne : c.vals ≠ []) :
    (df.oneHotStep k).cols
      = df.cols.filter (fun cc => !(cc.name == k))
          ++ (unique_k c.vals).tail.map (indicatorColumn k c) ∧
    (unique_k c.vals).tail.length + 1 = (unique_k c.vals).length ∧
    (df.oneHotStep k).getCol k = none ∧
    (∀ v ∈ (unique_k c.vals).tail,
      (indicatorColumn k c v).vals = c.vals.map (fun x => if x = v then 1 else 0)) ∧
    (∀ i v, v ∈ (unique_k c.vals).tail →
      c.vals.getD i 0 = (unique_k c.vals).headD 0 →
      (if c.vals.getD i 0 = v then (1 : ℚ) else 0) = 0) := by
  have hv : df.colVals k = c.vals := by simp [DataFrame.colVals, hc]
  have hu : unique_k c.vals ≠ [] := by
    unfold unique_k
    rw [Ne, List.dedup_eq_nil]
    intro hsort
    have hp := List.perm_insertionSort (· ≤ ·) c.vals
    rw [hsort] at hp
    exact hne hp.symm.eq_nil
  have henc : df.oneHotEncoding k (unique_k (df.colVals k)).tail
      = DataFrame.mk df.index
          (df.cols ++ (unique_k c.vals).tail.map (indicatorColumn k c)) := by
    unfold DataFrame.oneHotEncoding
    rw [hv, hc]
  refine ⟨?_, ?_, ?_, fun v _ => rfl, ?_⟩
  · show ((df.oneHotEncoding k (unique_k (df.colVals k)).tail).dropColumn k).cols = _
    rw [henc]
    unfold DataFrame.dropColumn
    rw [List.filter_append]
    dsimp only
    congr 1
    rw [List.filter_eq_self]
    intro cc hcc
    simp only [List.mem_map] at hcc
    obtain ⟨v, _, rfl⟩ := hcc
    simpa [indicatorColumn] using append_underscore_ne k (toString v)
  · obtain ⟨a, l, he⟩ := List.exists_cons_of_ne_nil hu
    rw [he]
    simp
  · exact getCol_dropColumn_self _ _
  · intro i v hvmem hhead
    obtain ⟨a, l, he⟩ := List.exists_cons_of_ne_nil hu
    have hnd : (unique_k c.vals).Nodup := List.nodup_dedup _
    rw [he] at hvmem hhead hnd
    simp only [List.tail_cons] at hvmem
    simp only [List.headD_cons] at hhead
    rw [if_neg]
    intro hev
    rw [hhead] at hev
    exact (List.nodup_cons.mp hnd).1 (hev ▸ hvmem)

/-- The `SEX` column of the witness dataframe `dfW`. -/
def cWsex : Column := ⟨"SEX", .int64, [1, 2, 1]⟩

/-- Witness for the amended C2 at the concrete dataframe `dfW`. -/
theorem one_hot_encoding_step_witness :
    (dfW.oneHotStep "SEX").cols
      = dfW.cols.filter (fun cc => !(cc.name == "SEX"))
          ++ (unique_k cWsex.vals).tail.map (indicatorColumn "SEX" cWsex) ∧
    (unique_k cWsex.vals).tail.length + 1 = (unique_k cWsex.vals).length ∧
    (dfW.oneHotStep "SEX").getCol "SEX" = none ∧
    (∀ v ∈ (unique_k cWsex.vals).tail,
      (indicatorColumn "SEX" cWsex v).vals
        = cWsex.vals.map (fun x => if x = v then 1 else 0)) ∧
    (∀ i v, v ∈ (unique_k cWsex.vals).tail →
      cWsex.vals.getD i 0 = (unique_k cWsex.vals).headD 0 →
      (if cWsex.vals.getD i 0 = v then (1 : ℚ) else 0) = 0) :=
  one_hot_encoding_step dfW "SEX" cWsex (by decide) (by decide)

/-! ## The train/validation split (claim C3) -/

/-- C3 fails as stated: label slicing is inclusive at both ends, so the
two slices are not disjoint.  On `dfW` (3 rows with labels 0, 1, 2;
`splitpoint = int(3 * 0.8) = 2`) the row labelled 2 belongs to BOTH the
train slice `loc[:2]` and the valid slice `loc[2:]`, and the row counts
sum to 4, one more than the 3 rows of the dataframe — so not every row
belongs to exactly one of the two sets. -/
theorem train_valid_split_counterexample :
    dfW.splitpoint = 2 ∧
    dfW.index.Nodup ∧
    (2 : ℕ) ∈ (dfW.trainValidSplit dfW.splitpoint).1.index ∧
    (2 : ℕ) ∈ (dfW.trainValidSplit dfW.splitpoint).2.index ∧
    (dfW.trainValidSplit dfW.splitpoint).1.nrows
      + (dfW.trainValidSplit dfW.splitpoint).2.nrows = dfW.nrows + 1 := by decide

theorem length_filter_le_add_ge (l : List ℕ) (f : ℕ → ℕ) (s : ℕ) :
    (l.filter (fun i => decide (f i ≤ s))).length
      + (l.filter (fun i => decide (s ≤ f i))).length
    = l.length + (l.filter (fun i => decide (f i = s))).length := by
  induction l with
  | nil => rfl
  | cons a l ih =>
    by_cases h1 : f a ≤ s <;> by_cases h2 : s ≤ f a <;> by_cases h3 : f a = s <;>
        simp [List.filter_cons, h1, h2, h3] <;> omega

/-- C3 amended: the split at label `s` covers the whole dataframe but is
NOT a disjoint partition, and the boundary is inclusive rather than
strict: the train slice holds the rows with label ≤ `s` (not < `s`) and
the valid slice the rows with label ≥ `s`; every row is in at least one
slice, a row is in both exactly when its label equals `s`, and the two
row counts sum to the number of rows plus the number of rows labelled
`s`.  (In the notebook run this overspill is visible in the recorded
output: 7974 + 2012 = 9986 rows from a 9985-row dataframe.) -/
theorem train_valid_split_inclusive (df : DataFrame) (s : ℕ) :
    (df.trainValidSplit s).1 = df.locLe s ∧
    (df.trainValidSplit s).2 = df.locGe s ∧
    (∀ i, i < df.nrows → i ∈ df.keepLe s ∨ i ∈ df.keepGe s) ∧
    (∀ i, i < df.nrows →
      ((i ∈ df.keepLe s ∧ i ∈ df.keepGe s) ↔ df.index.getD i 0 = s)) ∧
    (df.locLe s).nrows + (df.locGe s).nrows
      = df.nrows
        + ((List.range df.nrows).filter
            (fun i => decide (df.index.getD i 0 = s))).length := by
  refine ⟨rfl, rfl, ?_, ?_, ?_⟩
  · intro i hi
    rcases Nat.le_total (df.index.getD i 0) s with h | h
    · exact Or.inl (List.mem_filter.mpr ⟨List.mem_range.mpr hi, by simpa using h⟩)
    · exact Or.inr (List.mem_filter.mpr ⟨List.mem_range.mpr hi, by simpa using h⟩)
  · intro i hi
    constructor
    · rintro ⟨hle, hge⟩
      have h1 := (List.mem_filter.mp hle).2
      have h2 := (List.mem_filter.mp hge).2
      simp only [decide_eq_true_eq] at h1 h2
      omega
    · intro he
      have hrefl : s ≤ s := le_refl s
      refine ⟨List.mem_filter.mpr ⟨List.mem_range.mpr hi,
          by simp only [decide_eq_true_eq, he]; exact hrefl⟩,
        List.mem_filter.mpr ⟨List.mem_range.mpr hi,
          by simp only [decide_eq_true_eq, he]; exact hrefl⟩⟩
  · have h1 : (df.locLe s).nrows = (df.keepLe s).length := by
      simp [DataFrame.locLe, DataFrame.nrows]
    have h2 : (df.locGe s).nrows = (df.keepGe s).length := by
      simp [DataFrame.locGe, DataFrame.nrows]
    rw [h1, h2]
    unfold DataFrame.keepLe DataFrame.keepGe
    have := length_filter_le_add_ge (List.range df.nrows) (fun i => df.index.getD i 0) s
    simpa using this

/-! ## Error propagation through the linear cell sequence (claim C7) -/

/-- An error raised inside one of the called libraries; the notebooks
contain no try/except, so it can only propagate untouched. -/
inductive LibError
  | fileNotFound
  | badColumnName
  | castFailure
  | libraryIncompatibility
deriving DecidableEq

/-- The notebooks sequence fallible library calls one after the other —
plain linear cell order — with no recovery, retry, or validation in
between: each step runs only when all earlier ones succeeded. -/
def runSteps (steps : List (DataFrame → Except LibError DataFrame))
    (init : Except LibError DataFrame) : Except LibError DataFrame :=
  steps.foldl (fun acc st => acc.bind st) init

theorem runSteps_of_error (steps : List (DataFrame → Except LibError DataFrame))
    (e : LibError) : runSteps steps (.error e) = .error e := by
  induction steps with
  | nil => rfl
  | cons st steps ih =>
    unfold runSteps at *
    rw [List.foldl_cons]
    exact ih

/-- C7: the pipeline raises exactly when a library call raises, with the
library's own error: an error short-circuits every later step unchanged
(no recovery, retry or validation logic exists in the repository), and
whenever the steps before some step succeed and that step fails with
error `e`, the whole pipeline returns exactly `e`. -/
theorem pipeline_error_propagation
    (pre post steps : List (DataFrame → Except LibError DataFrame))
    (st : DataFrame → Except LibError DataFrame)
    (init : Except LibError DataFrame) (df : DataFrame) (e : LibError)
    (hpre : runSteps pre init = .ok df) (hst : st df = .error e) :
    runSteps steps (.error e) = .error e ∧
    runSteps (pre ++ st :: post) init = .error e := by
  refine ⟨runSteps_of_error steps e, ?_⟩
  unfold runSteps at hpre ⊢
  rw [List.foldl_append, hpre, List.foldl_cons]
  have hbind : (Except.ok df).bind st = Except.error e := hst
  rw [hbind]
  exact runSteps_of_error post e

/-- Witness for C7: a concrete pipeline whose second step fails with
`badColumnName`; the pipeline returns exactly that error. -/
theorem pipeline_error_propagation_witness :
    runSteps [fun d => Except.ok d] (.error .badColumnName) = .error .badColumnName ∧
    runSteps ([] ++ (fun _ => Except.error LibError.badColumnName) :: [fun d => Except.ok d])
        (.ok dfW) = .error .badColumnName :=
  pipeline_error_propagation [] [fun d => Except.ok d] [fun d => Except.ok d]
    (fun _ => Except.error LibError.badColumnName) (.ok dfW) dfW .badColumnName rfl rfl

/-! ## Ingesting the input file (claim C9) -/

/-- A delimited text file with a header row, abstracted to its header:
for each named column, the element type the reader infers for it. -/
structure CsvFile where
  header : List (String × DType)

/-- One dataframe column per header entry: column `j` takes the `j`-th
field of every row. -/
def mkCols (rows : List (List ℚ)) : ℕ → List (String × DType) → List Column
  | _, [] => []
  | j, nd :: rest =>
    ⟨nd.1, nd.2, rows.map (fun r => r.getD j 0)⟩ :: mkCols rows (j + 1) rest

/-- Modelled from the spec (file ingestion is a library call):
`pd.read_csv` followed by `cudf.DataFrame.from_pandas` yields a
dataframe with one column per header name, of the inferred type, with
index `0..n-1`. -/
def read_csv (f : CsvFile) (rows : List (List ℚ)) : DataFrame :=
  { index := List.range rows.length
    cols := mkCols rows 0 f.header }

/-- The 30 leading columns of `../input/ipums_easy.csv` with their
inferred types, exactly as the recorded `gdf.dtypes` output of the
notebook lists them. -/
def ipumsHead : List (String × DType) :=
  [("RECTYPE", .int64), ("YEAR", .int64), ("DATANUM", .int64), ("SERIAL", .int64),
   ("NUMPREC", .int64), ("SUBSAMP", .int64), ("HHWT", .int64), ("HHTYPE", .int64),
   ("REPWT", .float64), ("CLUSTER", .int64), ("ADJUST", .float64), ("CPI99", .float64),
   ("REGION", .int64), ("STATEICP", .int64), ("STATEFIP", .int64), ("COUNTY", .float64),
   ("COUNTYFIPS", .float64), ("METRO", .float64), ("METAREA", .float64),
   ("METAREAD", .float64), ("MET2013", .float64), ("MET2013ERR", .float64),
   ("CITY", .float64), ("CITYERR", .float64), ("CITYPOP", .float64), ("PUMA", .float64),
   ("PUMARES2MIG", .float64), ("STRATA", .int64), ("PUMASUPR", .float64),
   ("CONSPUMA", .float64)]

/-- The 12 columns the notebook later selects exist in the file; the 10
not already in `ipumsHead`, integer typed per the post-selection
`gdf.dtypes` output. -/
def ipumsPerson : List (String × DType) :=
  [("INCEARN", .int64), ("PERWT", .int64), ("ROOMS", .int64), ("BEDROOMS", .int64),
   ("PHONE", .int64), ("VEHICLES", .int64), ("RACE", .int64), ("SEX", .int64),
   ("AGE", .int64), ("VETSTAT", .int64)]

/-- The 30 trailing replicate-weight columns of the recorded output,
`REPWTP51 … REPWTP80`, all float64. -/
def ipumsTail : List (String × DType) :=
  (List.range 30).map (fun i => ("REPWTP" ++ toString (51 + i), DType.float64))

/-- Modelled from the spec: the input file `../input/ipums_easy.csv` is
not part of the repository; per the spec it is census-style microdata
whose header names ~459 columns of mixed integer/floating types, and the
recorded `gdf.dtypes` output pins the count at exactly 459 and shows the
leading and trailing names.  The 389 columns elided by the truncated
output are modelled as float64 replicate-weight columns. -/
def ipumsEasy : CsvFile :=
  { header := ipumsHead ++ ipumsPerson
      ++ (List.range 389).map (fun i => ("REPWTVAR" ++ toString i, DType.float64))
      ++ ipumsTail }

theorem mkCols_length (rows : List (List ℚ)) (j : ℕ) (h : List (String × DType)) :
    (mkCols rows j h).length = h.length := by
  induction h generalizing j with
  | nil => rfl
  | cons nd rest ih => simp [mkCols, ih]

theorem mkCols_dtype (rows : List (List ℚ)) (j : ℕ) (h : List (String × DType))
    {c : Column} (hc : c ∈ mkCols rows j h) : ∃ nd ∈ h, c.dtype = nd.2 := by
  induction h generalizing j with
  | nil => simp [mkCols] at hc
  | cons nd rest ih =>
    rw [mkCols] at hc
    rcases List.mem_cons.mp hc with he | hm
    · exact ⟨nd, List.mem_cons_self nd rest, by rw [he]⟩
    · obtain ⟨nd', hnd', he'⟩ := ih (j + 1) hm
      exact ⟨nd', List.mem_cons_of_mem _ hnd', he'⟩

theorem mkCols_vals_length (rows : List (List ℚ)) (j : ℕ) (h : List (String × DType))
    {c : Column} (hc : c ∈ mkCols rows j h) : c.vals.length = rows.length := by
  induction h generalizing j with
  | nil => simp [mkCols] at hc
  | cons nd rest ih =>
    rw [mkCols] at hc
    rcases List.mem_cons.mp hc with he | hm
    · rw [he]
      simp
    · exact ih (j + 1) hm

/-- C9: reading the input file yields a tabular dataset of 459 named
columns (the recorded `gdf.dtypes` output makes the spec's "~459"
exactly 459), each column of integer or floating-point type, aligned,
for any row contents — before any column selection is applied. -/
theorem read_csv_shape (rows : List (List ℚ)) :
    (read_csv ipumsEasy rows).cols.length = 459 ∧
    (∀ c ∈ (read_csv ipumsEasy rows).cols,
      c.dtype = DType.int64 ∨ c.dtype = DType.float64) ∧
    (read_csv ipumsEasy rows).aligned := by
  refine ⟨?_, ?_, ?_⟩
  · show (mkCols rows 0 ipumsEasy.header).length = 459
    rw [mkCols_length]
    simp [ipumsEasy, ipumsHead, ipumsPerson, ipumsTail]
  · intro c hc
    obtain ⟨nd, hnd, he⟩ := mkCols_dtype rows 0 ipumsEasy.header hc
    rw [he]
    have hhead : ∀ nd ∈ ipumsHead, nd.2 = DType.int64 ∨ nd.2 = DType.float64 := by decide
    have hpers : ∀ nd ∈ ipumsPerson, nd.2 = DType.int64 ∨ nd.2 = DType.float64 := by decide
    simp only [ipumsEasy, List.mem_append, List.mem_map] at hnd
    rcases hnd with ((h1 | h2) | h3) | h4
    · exact hhead nd h1
    · exact hpers nd h2
    · obtain ⟨i, _, he'⟩ := h3
      rw [← he']
      exact Or.inr rfl
    · simp only [ipumsTail, List.mem_map] at h4
      obtain ⟨i, _, he'⟩ := h4
      rw [← he']
      exact Or.inr rfl
  · intro c hc
    show c.vals.length = (List.range rows.length).length
    rw [List.length_range]
    exact mkCols_vals_length rows 0 ipumsEasy.header hc

/-! ## SHAP additivity (claim C5) -/

/-- Modelled from the spec (the SHAP explainer is an external library;
the spec defines a SHAP value as an additive per-feature attribution of
a model's prediction relative to a baseline expectation).  The model is
abstracted to its coalition value `v : Finset (Fin n) → ℚ`: the expected
positive-class output when exactly the features in the coalition take
the explained row's values.  `prefixSet n σ k` is the coalition of the
first `k` features in the feature ordering `σ`. -/
def prefixSet (n : ℕ) (σ : Equiv.Perm (Fin n)) (k : ℕ) : Finset (Fin n) :=
  (((List.finRange n).map σ).take k).toFinset

/-- The marginal contribution of feature `i` under the feature ordering
`σ`: the change in coalition value when `i` joins the features ordered
before it. -/
def marginal (n : ℕ) (v : Finset (Fin n) → ℚ) (σ : Equiv.Perm (Fin n)) (i : Fin n) : ℚ :=
  v (prefixSet n σ ((σ.symm i : ℕ) + 1)) - v (prefixSet n σ (σ.symm i))

/-- Modelled from the spec: the exact SHAP (Shapley) value of feature
`i` — the average of its marginal contribution over all feature
orderings. -/
def shapValue (n : ℕ) (v : Finset (Fin n) → ℚ) (i : Fin n) : ℚ :=
  (∑ σ : Equiv.Perm (Fin n), marginal n v σ i) / (n.factorial : ℚ)

/-- Modelled from the spec: the explainer's baseline expected value
(`explainer.expected_value[1]`) — the coalition value of no features. -/
def baseline (n : ℕ) (v : Finset (Fin n) → ℚ) : ℚ := v ∅

/-- Modelled from the spec: the model's predicted positive-class
probability for the explained row — the coalition value of all
features. -/
def prediction (n : ℕ) (v : Finset (Fin n) → ℚ) : ℚ := v Finset.univ

theorem prefixSet_zero (n : ℕ) (σ : Equiv.Perm (Fin n)) : prefixSet n σ 0 = ∅ := rfl

theorem prefixSet_full (n : ℕ) (σ : Equiv.Perm (Fin n)) :
    prefixSet n σ n = Finset.univ := by
  unfold prefixSet
  rw [List.take_of_length_le (by simp)]
  apply Finset.eq_univ_iff_forall.mpr
  intro x
  rw [List.mem_toFinset]
  exact List.mem_map.mpr ⟨σ.symm x, List.mem_finRange _, by simp⟩

theorem marginal_sum (n : ℕ) (v : Finset (Fin n) → ℚ) (σ : Equiv.Perm (Fin n)) :
    ∑ i : Fin n, marginal n v σ i = v Finset.univ - v ∅ := by
  have h1 : ∑ i : Fin n, marginal n v σ i
      = ∑ k : Fin n, (v (prefixSet n σ ((k : ℕ) + 1)) - v (prefixSet n σ (k : ℕ))) :=
    Equiv.sum_comp σ.symm
      (fun k : Fin n => v (prefixSet n σ ((k : ℕ) + 1)) - v (prefixSet n σ (k : ℕ)))
  rw [h1,
    Fin.sum_univ_eq_sum_range (fun k => v (prefixSet n σ (k + 1)) - v (prefixSet n σ k)),
    Finset.sum_range_sub (fun k => v (prefixSet n σ k)), prefixSet_full, prefixSet_zero]

/-- C5: SHAP attribution is additive: for the explained row, the sum
over all features of the SHAP values equals the model's predicted
output for that row minus the explainer's baseline expected value. -/
theorem shap_additivity (n : ℕ) (v : Finset (Fin n) → ℚ) :
    ∑ i : Fin n, shapValue n v i = prediction n v - baseline n v := by
  unfold shapValue prediction baseline
  rw [← Finset.sum_div, Finset.sum_comm,
    Finset.sum_congr rfl (fun σ _ => marginal_sum n v σ),
    Finset.sum_const, Finset.card_univ, Fintype.card_perm, Fintype.card_fin,
    nsmul_eq_mul, mul_div_cancel_left₀]
  exact Nat.cast_ne_zero.mpr (Nat.factorial_ne_zero n)

end WorkshopNbs
